import Mathlib

/-!
# Verification of the keyboard file-selection helpers

Shallow embedding of `app/src/lib/utils/selection.ts` (the Selection
Navigator): `getNextFile`, `getPreviousFile` and `maybeMoveSelection`,
together with spec-modelled versions of the helpers that file imports
but that are not part of this fragment (`getSelectionDirection`,
`stringifyFileKey` / `unstringifyFileKey`, and the `FileIdSelection`
manager's `add` / `remove` / `clear` operations).

Side effects of `maybeMoveSelection` (selection-manager calls and DOM
focus calls) are embedded as an explicit trace of `Effect`s, produced in
exactly the order the TypeScript code performs them; the spec-modelled
selection manager then interprets that trace to yield the new selection.
-/

/-- A file item (`AnyFile`): an opaque record with a stable identifier.
Ordering is solely its position in the supplied sequence. -/
structure AnyFile where
  id : String
deriving DecidableEq

/-- JavaScript `Array.prototype.findIndex`: the index of the first
element satisfying the predicate, or `-1` when there is none. -/
def findIndexJS (p : AnyFile → Bool) (files : List AnyFile) : Int :=
  match files.findIdx? p with
  | some i => (i : Int)
  | none => -1

/-- `getNextFile` from selection.ts:
`fileIndex !== -1 && fileIndex + 1 < files.length ? files[fileIndex + 1] : undefined`. -/
def getNextFile (files : List AnyFile) (currentId : String) : Option AnyFile :=
  match files.findIdx? (fun f => f.id == currentId) with
  | some fileIndex =>
      if fileIndex + 1 < files.length then files.get? (fileIndex + 1) else none
  | none => none

/-- `getPreviousFile` from selection.ts:
`fileIndex > 0 ? files[fileIndex - 1] : undefined` (with `fileIndex = -1`
when absent, which also fails the `> 0` test). -/
def getPreviousFile (files : List AnyFile) (currentId : String) : Option AnyFile :=
  match files.findIdx? (fun f => f.id == currentId) with
  | some fileIndex =>
      if 0 < fileIndex then files.get? (fileIndex - 1) else none
  | none => none

/-- Selection direction: `up`, `down` or `none`. -/
inductive SelectionDirection where
  | up
  | down
  | none
deriving DecidableEq

/-- Modelled from the spec: `getSelectionDirection` is imported by
selection.ts but its source is not part of this fragment.  Per the spec,
the direction is `down` if the last-selected identifier's list position
is greater than the first-selected identifier's, `up` if it is less, and
`none` if they are equal.  The call site passes the last index first. -/
def getSelectionDirection (lastIdx firstIdx : Int) : SelectionDirection :=
  if firstIdx < lastIdx then SelectionDirection.down
  else if lastIdx < firstIdx then SelectionDirection.up
  else SelectionDirection.none

/-- Modelled from the spec: `stringifyFileKey` is imported from the
selection-manager module, which is not part of this fragment.  The spec
describes selection entries only as "stringified file identifiers", so
the encoding is modelled as the identity on identifiers. -/
def stringifyFileKey (fileId : String) : String := fileId

/-- Modelled from the spec: `unstringifyFileKey` decodes a selection
entry back to a file identifier; the inverse of `stringifyFileKey`,
modelled as the identity. -/
def unstringifyFileKey (key : String) : String := key

/-- One observable side effect of `maybeMoveSelection`: a call to the
selection manager (`add` / `remove` / `clear`) or a DOM `focus()` call
on a sibling element. -/
inductive Effect where
  | add (id : String)
  | remove (id : String)
  | clear
  | focusEl (el : String)
deriving DecidableEq

/-- The DOM element holding focus, reduced to what selection.ts reads
from it: its previous and next sibling elements (by an opaque label),
when they exist. -/
structure TargetElement where
  previousElementSibling : Option String
  nextElementSibling : Option String
deriving DecidableEq

/-- `MoveSelectionParams` from selection.ts, minus the `fileIdSelection`
manager, whose method calls are returned as the `Effect` trace instead. -/
structure MoveSelectionParams where
  allowMultiple : Bool
  shiftKey : Bool
  key : String
  targetElement : TargetElement
  file : AnyFile
  files : List AnyFile
  selectedFileIds : List String

/-- The identifier decoded from `selectedFileIds[0]`
(only meaningful when the selection is non-empty). -/
def firstSelectedId (p : MoveSelectionParams) : String :=
  unstringifyFileKey (p.selectedFileIds.headD "")

/-- The identifier decoded from `selectedFileIds[selectedFileIds.length - 1]`
(only meaningful when the selection is non-empty). -/
def lastSelectedId (p : MoveSelectionParams) : String :=
  unstringifyFileKey (p.selectedFileIds.getLastD "")

/-- The `selectionDirection` local variable of `maybeMoveSelection` as
first computed:
`getSelectionDirection(files.findIndex(f => f.id === lastFileId), files.findIndex(f => f.id === firstFileId))`. -/
def initialDirection (p : MoveSelectionParams) : SelectionDirection :=
  getSelectionDirection
    (findIndexJS (fun f => f.id == lastSelectedId p) p.files)
    (findIndexJS (fun f => f.id == firstSelectedId p) p.files)

/-- The nested helper `getAndAddFile` of `maybeMoveSelection`: look the
file up; if found and its stringified id is already in `selectedFileIds`
do nothing, otherwise emit an `add` of its id. -/
def getAndAddFile (files : List AnyFile) (selectedFileIds : List String)
    (getFileFunc : List AnyFile → String → Option AnyFile) (id : String) : List Effect :=
  match getFileFunc files id with
  | some file =>
      if selectedFileIds.contains (stringifyFileKey file.id) then []
      else [Effect.add file.id]
  | none => []

/-- The nested helper `getAndClearAndAddFile` of `maybeMoveSelection`:
look the file up; if found, emit `clear` followed by an `add` of its id. -/
def getAndClearAndAddFile (files : List AnyFile)
    (getFileFunc : List AnyFile → String → Option AnyFile) (id : String) : List Effect :=
  match getFileFunc files id with
  | some file => [Effect.clear, Effect.add file.id]
  | none => []

/-- `maybeMoveSelection` from selection.ts, as the trace of selection
manager and focus calls it performs, in order.  The early return on an
empty selection, the `ArrowUp` / `ArrowDown` switch, the
shift-and-allowMultiple extension branches and the focus-then-reset
branches follow the source line by line; the local mutation
`selectionDirection = 'up' | 'down'` in the single-selection case has no
effect on the trace (the variable is not read afterwards) and is
recorded separately by `finalDirection`. -/
def maybeMoveSelection (p : MoveSelectionParams) : List Effect :=
  if p.selectedFileIds.length = 0 then []
  else if p.key = "ArrowUp" then
    if p.shiftKey && p.allowMultiple then
      (if p.selectedFileIds.length = 1 then []
       else if initialDirection p = SelectionDirection.down then
         [Effect.remove (lastSelectedId p)]
       else [])
      ++ getAndAddFile p.files p.selectedFileIds getPreviousFile (lastSelectedId p)
    else
      (match p.targetElement.previousElementSibling with
       | some el => [Effect.focusEl el]
       | none => [])
      ++ (if 1 < p.selectedFileIds.length then
            getAndClearAndAddFile p.files getPreviousFile (lastSelectedId p)
          else
            getAndClearAndAddFile p.files getPreviousFile p.file.id)
  else if p.key = "ArrowDown" then
    if p.shiftKey && p.allowMultiple then
      (if p.selectedFileIds.length = 1 then []
       else if initialDirection p = SelectionDirection.up then
         [Effect.remove (lastSelectedId p)]
       else [])
      ++ getAndAddFile p.files p.selectedFileIds getNextFile (lastSelectedId p)
    else
      (match p.targetElement.nextElementSibling with
       | some el => [Effect.focusEl el]
       | none => [])
      ++ (if 1 < p.selectedFileIds.length then
            getAndClearAndAddFile p.files getNextFile (lastSelectedId p)
          else
            getAndClearAndAddFile p.files getNextFile p.file.id)
  else []

/-- The final value of the `selectionDirection` local variable of
`maybeMoveSelection`: overwritten to match the pressed key when exactly
one identifier is selected in an extension branch, otherwise left at its
initial computed value (for an empty selection the function returns
before the variable exists; `initialDirection` is returned as a dummy). -/
def finalDirection (p : MoveSelectionParams) : SelectionDirection :=
  if p.key = "ArrowUp" ∧ p.shiftKey = true ∧ p.allowMultiple = true ∧
      p.selectedFileIds.length = 1 then
    SelectionDirection.up
  else if p.key = "ArrowDown" ∧ p.shiftKey = true ∧ p.allowMultiple = true ∧
      p.selectedFileIds.length = 1 then
    SelectionDirection.down
  else initialDirection p

/-- Modelled from the spec: one selection-manager call applied to the
current selection (an ordered sequence of stringified identifiers, order
reflecting selection history).  `add` appends the stringified id,
`remove` deletes it, `clear` empties the selection; a focus call does
not touch the selection. -/
def applyEffect (sel : List String) : Effect → List String
  | Effect.add id => sel ++ [stringifyFileKey id]
  | Effect.remove id => sel.filter (fun k => k != stringifyFileKey id)
  | Effect.clear => []
  | Effect.focusEl _ => sel

/-- Run a trace of effects over a starting selection. -/
def applyEffects (sel : List String) (effs : List Effect) : List String :=
  effs.foldl applyEffect sel

/-- The selection after a `maybeMoveSelection` call, obtained by running
its effect trace on the selection it was called with. -/
def newSelection (p : MoveSelectionParams) : List String :=
  applyEffects p.selectedFileIds (maybeMoveSelection p)

/-! ## Helper lemmas about `findIdx?` -/

/-- An index returned by `findIdx?` is within bounds. -/
theorem findIdx?_some_lt_length {α : Type} {p : α → Bool} {l : List α} {i : Nat}
    (h : l.findIdx? p = some i) : i < l.length := by
  induction l generalizing i with
  | nil => simp [List.findIdx?_nil] at h
  | cons x xs ih =>
    rw [List.findIdx?_cons] at h
    by_cases hx : p x
    · simp [hx] at h
      simp only [List.length_cons]
      omega
    · simp [hx, List.findIdx?_succ, Option.map_eq_some'] at h
      obtain ⟨a, ha, rfl⟩ := h
      have := ih ha
      simp only [List.length_cons]
      omega

/-- Every position strictly before the index returned by `findIdx?`
holds an element on which the predicate is false. -/
theorem findIdx?_some_before {α : Type} {p : α → Bool} {l : List α} {i : Nat}
    (h : l.findIdx? p = some i) {j : Nat} (hj : j < i) :
    ∃ a, l.get? j = some a ∧ p a = false := by
  induction l generalizing i j with
  | nil => simp [List.findIdx?_nil] at h
  | cons x xs ih =>
    rw [List.findIdx?_cons] at h
    by_cases hx : p x
    · simp [hx] at h
      omega
    · simp [hx, List.findIdx?_succ, Option.map_eq_some'] at h
      obtain ⟨a, ha, rfl⟩ := h
      cases j with
      | zero => exact ⟨x, rfl, by simpa using hx⟩
      | succ j => simpa using ih ha (by omega)

/-! ## C4: adjacent-file lookups -/

/-- C4: for every file list and every identifier occurring in it (at
first list-position `i`), `getNextFile` returns the item at position
`i + 1` when that position is within bounds and `undefined` (`none`)
otherwise, and `getPreviousFile` returns the item at position `i - 1`
when `i > 0` and `undefined` (`none`) otherwise. -/
theorem getNextFile_getPreviousFile_adjacent (files : List AnyFile) (id : String)
    (i : Nat) (hi : files.findIdx? (fun f => f.id == id) = some i) :
    (i + 1 < files.length →
      ∃ f, files.get? (i + 1) = some f ∧ getNextFile files id = some f) ∧
    (¬ i + 1 < files.length → getNextFile files id = Option.none) ∧
    (0 < i → ∃ f, files.get? (i - 1) = some f ∧ getPreviousFile files id = some f) ∧
    (i = 0 → getPreviousFile files id = Option.none) := by
  have hlen := findIdx?_some_lt_length hi
  refine ⟨?_, ?_, ?_, ?_⟩
  · intro hb
    exact ⟨files.get ⟨i + 1, hb⟩, List.get?_eq_get hb,
      by simp [getNextFile, hi, hb, List.get?_eq_get hb]⟩
  · intro hb
    simp [getNextFile, hi, hb]
  · intro hb
    have hb' : i - 1 < files.length := by omega
    exact ⟨files.get ⟨i - 1, hb'⟩, List.get?_eq_get hb',
      by simp [getPreviousFile, hi, hb, List.get?_eq_get hb']⟩
  · intro hb
    simp [getPreviousFile, hi, hb]

/-- Witness for C4 at `files = [A, B]`, `id = "A"` (position 0). -/
theorem getNextFile_getPreviousFile_adjacent_witness :
    ([⟨"A"⟩, ⟨"B"⟩] : List AnyFile).findIdx? (fun f => f.id == "A") = some 0 ∧
    ((0 + 1 < ([⟨"A"⟩, ⟨"B"⟩] : List AnyFile).length →
      ∃ f, ([⟨"A"⟩, ⟨"B"⟩] : List AnyFile).get? (0 + 1) = some f ∧
        getNextFile [⟨"A"⟩, ⟨"B"⟩] "A" = some f) ∧
    (¬ 0 + 1 < ([⟨"A"⟩, ⟨"B"⟩] : List AnyFile).length →
      getNextFile [⟨"A"⟩, ⟨"B"⟩] "A" = Option.none) ∧
    (0 < 0 → ∃ f, ([⟨"A"⟩, ⟨"B"⟩] : List AnyFile).get? (0 - 1) = some f ∧
      getPreviousFile [⟨"A"⟩, ⟨"B"⟩] "A" = some f) ∧
    (0 = 0 → getPreviousFile [⟨"A"⟩, ⟨"B"⟩] "A" = Option.none)) :=
  ⟨by decide, getNextFile_getPreviousFile_adjacent [⟨"A"⟩, ⟨"B"⟩] "A" 0 (by decide)⟩

/-! ## C7: empty selection is a no-op -/

/-- C7: a `maybeMoveSelection` call with an empty `selectedFileIds`
sequence returns immediately: no selection-manager operation (`add`,
`remove`, `clear`) and no focus effect is emitted, and the selection is
unchanged. -/
theorem maybeMoveSelection_empty_noop (p : MoveSelectionParams)
    (h : p.selectedFileIds = []) :
    maybeMoveSelection p = [] ∧ newSelection p = p.selectedFileIds := by
  constructor
  · simp [maybeMoveSelection, h]
  · simp [newSelection, applyEffects, maybeMoveSelection, h]

/-- Witness for C7 at a concrete call with an empty selection. -/
theorem maybeMoveSelection_empty_noop_witness :
    (MoveSelectionParams.selectedFileIds
      { allowMultiple := true, shiftKey := true, key := "ArrowDown",
        targetElement := ⟨some "p", some "n"⟩, file := ⟨"A"⟩,
        files := [⟨"A"⟩, ⟨"B"⟩], selectedFileIds := [] } = []) ∧
    (maybeMoveSelection
      { allowMultiple := true, shiftKey := true, key := "ArrowDown",
        targetElement := ⟨some "p", some "n"⟩, file := ⟨"A"⟩,
        files := [⟨"A"⟩, ⟨"B"⟩], selectedFileIds := [] } = [] ∧
     newSelection
      { allowMultiple := true, shiftKey := true, key := "ArrowDown",
        targetElement := ⟨some "p", some "n"⟩, file := ⟨"A"⟩,
        files := [⟨"A"⟩, ⟨"B"⟩], selectedFileIds := [] } =
      MoveSelectionParams.selectedFileIds
      { allowMultiple := true, shiftKey := true, key := "ArrowDown",
        targetElement := ⟨some "p", some "n"⟩, file := ⟨"A"⟩,
        files := [⟨"A"⟩, ⟨"B"⟩], selectedFileIds := [] }) :=
  ⟨rfl, maybeMoveSelection_empty_noop _ rfl⟩

/-! ## C8: keys other than the two arrows are ignored -/

/-- C8: for every key other than `ArrowUp` and `ArrowDown`,
`maybeMoveSelection` emits no effect at all — no selection mutation and
no focus movement — and the selection is unchanged. -/
theorem maybeMoveSelection_other_key_noop (p : MoveSelectionParams)
    (h1 : ¬ p.key = "ArrowUp") (h2 : ¬ p.key = "ArrowDown") :
    maybeMoveSelection p = [] ∧ newSelection p = p.selectedFileIds := by
  constructor
  · simp [maybeMoveSelection, h1, h2]
  · simp [newSelection, applyEffects, maybeMoveSelection, h1, h2]

/-- Witness for C8 at key `"Enter"`. -/
theorem maybeMoveSelection_other_key_noop_witness :
    (¬ MoveSelectionParams.key
      { allowMultiple := true, shiftKey := false, key := "Enter",
        targetElement := ⟨some "p", some "n"⟩, file := ⟨"A"⟩,
        files := [⟨"A"⟩, ⟨"B"⟩], selectedFileIds := ["A"] } = "ArrowUp") ∧
    (maybeMoveSelection
      { allowMultiple := true, shiftKey := false, key := "Enter",
        targetElement := ⟨some "p", some "n"⟩, file := ⟨"A"⟩,
        files := [⟨"A"⟩, ⟨"B"⟩], selectedFileIds := ["A"] } = [] ∧
     newSelection
      { allowMultiple := true, shiftKey := false, key := "Enter",
        targetElement := ⟨some "p", some "n"⟩, file := ⟨"A"⟩,
        files := [⟨"A"⟩, ⟨"B"⟩], selectedFileIds := ["A"] } =
      MoveSelectionParams.selectedFileIds
      { allowMultiple := true, shiftKey := false, key := "Enter",
        targetElement := ⟨some "p", some "n"⟩, file := ⟨"A"⟩,
        files := [⟨"A"⟩, ⟨"B"⟩], selectedFileIds := ["A"] }) :=
  ⟨by decide, maybeMoveSelection_other_key_noop _ (by decide) (by decide)⟩

/-! ## C1: the reversal example -/

/-- The ordered file list `[A, B, C, D]` used by the spec's examples. -/
def exampleFiles : List AnyFile := [⟨"A"⟩, ⟨"B"⟩, ⟨"C"⟩, ⟨"D"⟩]

/-- A focused element with both siblings present (irrelevant to the
extension branches, which never touch focus). -/
def exampleTarget : TargetElement := ⟨some "prevSibling", some "nextSibling"⟩

/-- First call of the reversal example: selection `[B]`,
`ArrowDown` with the extend modifier, multi-select allowed. -/
def reversalStep1 : MoveSelectionParams :=
  { allowMultiple := true, shiftKey := true, key := "ArrowDown",
    targetElement := exampleTarget, file := ⟨"B"⟩, files := exampleFiles,
    selectedFileIds := ["B"] }

/-- Second call of the reversal example: selection `[B, C]`,
`ArrowUp` with the extend modifier, multi-select allowed. -/
def reversalStep2 : MoveSelectionParams :=
  { allowMultiple := true, shiftKey := true, key := "ArrowUp",
    targetElement := exampleTarget, file := ⟨"B"⟩, files := exampleFiles,
    selectedFileIds := ["B", "C"] }

/-- C1 counterexample: the first call does produce `[B, C]`, but the
second call produces `[B]`, not the `[B, A]` the claim states — the code
removes `C` and then looks up the file previous to the *old*
last-selected identifier `C`, which is `B`, already selected, so nothing
is added. -/
theorem reversal_example_not_BA :
    newSelection reversalStep1 = ["B", "C"] ∧
    newSelection reversalStep2 = ["B"] ∧
    ¬ newSelection reversalStep2 = ["B", "A"] := by
  refine ⟨?_, ?_, ?_⟩ <;> decide

/-- C1 amended: with `orderedFiles = [A, B, C, D]`, from `selectedIds =
[B]`, `ArrowDown`+extend reaches `[B, C]`; the subsequent
`ArrowUp`+extend call removes `C`, and the attempted add targets the
file previous to the old last-selected `C` — that is `B`, which is
already selected — so nothing is added and the resulting selection is
`[B]`. -/
theorem reversal_example_amended :
    newSelection reversalStep1 = ["B", "C"] ∧
    maybeMoveSelection reversalStep2 = [Effect.remove "C"] ∧
    newSelection reversalStep2 = ["B"] := by
  refine ⟨?_, ?_, ?_⟩ <;> decide

/-! ## C5: seeding an upward extension from a single selection -/

/-- A file found by `getPreviousFile` sits strictly before the first
occurrence of the looked-up identifier, so its own id differs from it. -/
theorem getPreviousFile_some_id_ne {files : List AnyFile} {id : String} {f : AnyFile}
    (h : getPreviousFile files id = some f) : ¬ f.id = id := by
  unfold getPreviousFile at h
  split at h
  · rename_i i hfind
    by_cases hi : 0 < i
    · rw [if_pos hi] at h
      obtain ⟨a, ha, hpa⟩ := findIdx?_some_before hfind (j := i - 1) (by omega)
      rw [ha] at h
      obtain rfl : a = f := by injection h
      simpa using hpa
    · rw [if_neg hi] at h
      simp at h
  · simp at h

/-- C5 counterexample: `files = [A]`, `selectedIds = ["A"]`,
`ArrowUp`+extend with multi-select allowed — the selected file has no
previous file, so the selection stays `["A"]` of size 1; the claimed
growth to size 2 fails (even though the direction is set to `up`). -/
theorem extendUp_single_at_top_no_growth :
    newSelection
      { allowMultiple := true, shiftKey := true, key := "ArrowUp",
        targetElement := exampleTarget, file := ⟨"A"⟩, files := [⟨"A"⟩],
        selectedFileIds := ["A"] } = ["A"] ∧
    ¬ (newSelection
      { allowMultiple := true, shiftKey := true, key := "ArrowUp",
        targetElement := exampleTarget, file := ⟨"A"⟩, files := [⟨"A"⟩],
        selectedFileIds := ["A"] }).length = 2 ∧
    finalDirection
      { allowMultiple := true, shiftKey := true, key := "ArrowUp",
        targetElement := exampleTarget, file := ⟨"A"⟩, files := [⟨"A"⟩],
        selectedFileIds := ["A"] } = SelectionDirection.up := by
  refine ⟨?_, ?_, ?_⟩ <;> decide

/-- C5 amended: for every selection of size exactly 1, a
`maybeMoveSelection` call with `ArrowUp`, the extend modifier and
`allowMultiple` sets the selection direction to `up`; and provided the
selected file has a previous file in the list, that file is added,
growing the selection to size 2. -/
theorem extendUp_single_grows (p : MoveSelectionParams)
    (hk : p.key = "ArrowUp") (hs : p.shiftKey = true) (hm : p.allowMultiple = true)
    (hlen : p.selectedFileIds.length = 1)
    (f : AnyFile) (hf : getPreviousFile p.files (lastSelectedId p) = some f) :
    finalDirection p = SelectionDirection.up ∧
    newSelection p = p.selectedFileIds ++ [stringifyFileKey f.id] ∧
    (newSelection p).length = 2 := by
  obtain ⟨k, hk'⟩ := List.length_eq_one.mp hlen
  have hlast : lastSelectedId p = k := by
    simp [lastSelectedId, unstringifyFileKey, hk']
  rw [hlast] at hf
  have hne : ¬ f.id = k := hlast ▸ getPreviousFile_some_id_ne (hlast ▸ hf)
  have heff : maybeMoveSelection p = [Effect.add f.id] := by
    simp [maybeMoveSelection, hk, hs, hm, hk', getAndAddFile, hlast,
      lastSelectedId, unstringifyFileKey, hf, stringifyFileKey, hne]
  refine ⟨?_, ?_, ?_⟩
  · simp [finalDirection, hk, hs, hm, hlen]
  · simp [newSelection, applyEffects, heff, applyEffect, stringifyFileKey]
  · simp [newSelection, applyEffects, heff, applyEffect, hk', stringifyFileKey]

/-- Witness for C5 (amended) at `files = [A, B]`, `selectedIds = ["B"]`. -/
theorem extendUp_single_grows_witness :
    (MoveSelectionParams.key
      { allowMultiple := true, shiftKey := true, key := "ArrowUp",
        targetElement := ⟨some "p", some "n"⟩, file := ⟨"B"⟩,
        files := [⟨"A"⟩, ⟨"B"⟩], selectedFileIds := ["B"] } = "ArrowUp") ∧
    (getPreviousFile [⟨"A"⟩, ⟨"B"⟩] (lastSelectedId
      { allowMultiple := true, shiftKey := true, key := "ArrowUp",
        targetElement := ⟨some "p", some "n"⟩, file := ⟨"B"⟩,
        files := [⟨"A"⟩, ⟨"B"⟩], selectedFileIds := ["B"] }) = some ⟨"A"⟩) ∧
    (finalDirection
      { allowMultiple := true, shiftKey := true, key := "ArrowUp",
        targetElement := ⟨some "p", some "n"⟩, file := ⟨"B"⟩,
        files := [⟨"A"⟩, ⟨"B"⟩], selectedFileIds := ["B"] } = SelectionDirection.up ∧
     newSelection
      { allowMultiple := true, shiftKey := true, key := "ArrowUp",
        targetElement := ⟨some "p", some "n"⟩, file := ⟨"B"⟩,
        files := [⟨"A"⟩, ⟨"B"⟩], selectedFileIds := ["B"] } =
      MoveSelectionParams.selectedFileIds
      { allowMultiple := true, shiftKey := true, key := "ArrowUp",
        targetElement := ⟨some "p", some "n"⟩, file := ⟨"B"⟩,
        files := [⟨"A"⟩, ⟨"B"⟩], selectedFileIds := ["B"] } ++
        [stringifyFileKey (AnyFile.id ⟨"A"⟩)] ∧
     (newSelection
      { allowMultiple := true, shiftKey := true, key := "ArrowUp",
        targetElement := ⟨some "p", some "n"⟩, file := ⟨"B"⟩,
        files := [⟨"A"⟩, ⟨"B"⟩], selectedFileIds := ["B"] }).length = 2) :=
  ⟨rfl, by decide,
    extendUp_single_grows
      { allowMultiple := true, shiftKey := true, key := "ArrowUp",
        targetElement := ⟨some "p", some "n"⟩, file := ⟨"B"⟩,
        files := [⟨"A"⟩, ⟨"B"⟩], selectedFileIds := ["B"] }
      rfl rfl rfl (by decide) ⟨"A"⟩ (by decide)⟩

/-! ## Helpers about effect traces -/

/-- Running an appended trace runs the two parts in sequence. -/
theorem applyEffects_append (sel : List String) (l1 l2 : List Effect) :
    applyEffects sel (l1 ++ l2) = applyEffects (applyEffects sel l1) l2 := by
  simp [applyEffects, List.foldl_append]

/-- A leading focus effect (present or not) does not change the
selection computed from the rest of the trace. -/
theorem applyEffects_focusPrefix (sel : List String) (o : Option String) (l : List Effect) :
    applyEffects sel
      ((match o with | some el => [Effect.focusEl el] | none => []) ++ l) =
    applyEffects sel l := by
  cases o <;> simp [applyEffects, applyEffect]

/-- Every effect emitted by `getAndAddFile` is an `add`. -/
theorem getAndAddFile_all_add (files : List AnyFile) (sel : List String)
    (g : List AnyFile → String → Option AnyFile) (id : String) :
    ∀ e ∈ getAndAddFile files sel g id, ∃ i, e = Effect.add i := by
  unfold getAndAddFile
  split
  · split
    · intro e he
      simp at he
    · intro e he
      simp at he
      exact ⟨_, he⟩
  · intro e he
    simp at he

/-! ## C2: reversing direction removes the last-selected id first -/

/-- C2: for every `maybeMoveSelection` call with the extend modifier,
`allowMultiple`, more than one selected identifier and an arrow key
opposite the current selection direction, the very first effect is the
removal of the last-selected identifier, and everything after it is at
most an `add` — so the removal happens before any attempt to add an
adjacent file. -/
theorem reverse_extension_removes_last_first (p : MoveSelectionParams)
    (hs : p.shiftKey = true) (hm : p.allowMultiple = true)
    (hlen : 1 < p.selectedFileIds.length)
    (hdir : (p.key = "ArrowUp" ∧ initialDirection p = SelectionDirection.down) ∨
            (p.key = "ArrowDown" ∧ initialDirection p = SelectionDirection.up)) :
    (maybeMoveSelection p).head? = some (Effect.remove (lastSelectedId p)) ∧
    ∀ e ∈ (maybeMoveSelection p).tail, ∃ id, e = Effect.add id := by
  have h0 : ¬ p.selectedFileIds.length = 0 := by omega
  have h1 : ¬ p.selectedFileIds.length = 1 := by omega
  rcases hdir with ⟨hk, hd⟩ | ⟨hk, hd⟩
  · have heff : maybeMoveSelection p =
        Effect.remove (lastSelectedId p) ::
          getAndAddFile p.files p.selectedFileIds getPreviousFile (lastSelectedId p) := by
      simp [maybeMoveSelection, hk, hs, hm, h0, h1, hd]
    rw [heff]
    exact ⟨rfl, getAndAddFile_all_add _ _ _ _⟩
  · have hku : ¬ p.key = "ArrowUp" := by simp [hk]
    have heff : maybeMoveSelection p =
        Effect.remove (lastSelectedId p) ::
          getAndAddFile p.files p.selectedFileIds getNextFile (lastSelectedId p) := by
      simp [maybeMoveSelection, hk, hku, hs, hm, h0, h1, hd]
    rw [heff]
    exact ⟨rfl, getAndAddFile_all_add _ _ _ _⟩

/-- Witness for C2 at `files = [A, B, C]`, `selectedIds = ["A", "B"]`
(direction `down`), key `ArrowUp` with extend. -/
theorem reverse_extension_removes_last_first_witness :
    (1 < (MoveSelectionParams.selectedFileIds
      { allowMultiple := true, shiftKey := true, key := "ArrowUp",
        targetElement := ⟨some "p", some "n"⟩, file := ⟨"B"⟩,
        files := [⟨"A"⟩, ⟨"B"⟩, ⟨"C"⟩], selectedFileIds := ["A", "B"] }).length) ∧
    ((maybeMoveSelection
      { allowMultiple := true, shiftKey := true, key := "ArrowUp",
        targetElement := ⟨some "p", some "n"⟩, file := ⟨"B"⟩,
        files := [⟨"A"⟩, ⟨"B"⟩, ⟨"C"⟩], selectedFileIds := ["A", "B"] }).head? =
      some (Effect.remove (lastSelectedId
      { allowMultiple := true, shiftKey := true, key := "ArrowUp",
        targetElement := ⟨some "p", some "n"⟩, file := ⟨"B"⟩,
        files := [⟨"A"⟩, ⟨"B"⟩, ⟨"C"⟩], selectedFileIds := ["A", "B"] })) ∧
    ∀ e ∈ (maybeMoveSelection
      { allowMultiple := true, shiftKey := true, key := "ArrowUp",
        targetElement := ⟨some "p", some "n"⟩, file := ⟨"B"⟩,
        files := [⟨"A"⟩, ⟨"B"⟩, ⟨"C"⟩], selectedFileIds := ["A", "B"] }).tail,
      ∃ id, e = Effect.add id) :=
  ⟨by decide,
    reverse_extension_removes_last_first
      { allowMultiple := true, shiftKey := true, key := "ArrowUp",
        targetElement := ⟨some "p", some "n"⟩, file := ⟨"B"⟩,
        files := [⟨"A"⟩, ⟨"B"⟩, ⟨"C"⟩], selectedFileIds := ["A", "B"] }
      rfl rfl (by decide) (Or.inl ⟨rfl, by decide⟩)⟩

/-! ## C3: ArrowDown without extend collapses a multi-selection -/

/-- C3: for every `maybeMoveSelection` call with key `ArrowDown`, the
extend modifier not held and more than one identifier selected, the
selection collapses to exactly the file immediately after the
last-selected identifier in list order (position `i + 1`), and is left
unchanged when the last-selected identifier is the last item. -/
theorem arrowDown_no_extend_collapses (p : MoveSelectionParams)
    (hk : p.key = "ArrowDown") (hs : p.shiftKey = false)
    (hlen : 1 < p.selectedFileIds.length)
    (i : Nat) (hi : p.files.findIdx? (fun f => f.id == lastSelectedId p) = some i) :
    (i + 1 < p.files.length →
      ∃ f, p.files.get? (i + 1) = some f ∧
        newSelection p = [stringifyFileKey f.id]) ∧
    (¬ i + 1 < p.files.length → newSelection p = p.selectedFileIds) := by
  have h0 : ¬ p.selectedFileIds.length = 0 := by omega
  have hku : ¬ p.key = "ArrowUp" := by simp [hk]
  constructor
  · intro hb
    refine ⟨p.files.get ⟨i + 1, hb⟩, List.get?_eq_get hb, ?_⟩
    have hnext : getNextFile p.files (lastSelectedId p) =
        some (p.files.get ⟨i + 1, hb⟩) := by
      simp [getNextFile, hi, hb, List.get?_eq_get hb]
    have heff : maybeMoveSelection p =
        (match p.targetElement.nextElementSibling with
         | some el => [Effect.focusEl el] | none => []) ++
        [Effect.clear, Effect.add (p.files.get ⟨i + 1, hb⟩).id] := by
      simp [maybeMoveSelection, hk, hku, hs, h0, hlen, getAndClearAndAddFile, hnext]
    rw [newSelection, heff, applyEffects_focusPrefix]
    simp [applyEffects, applyEffect]
  · intro hb
    have hnext : getNextFile p.files (lastSelectedId p) = none := by
      simp [getNextFile, hi, hb]
    have heff : maybeMoveSelection p =
        (match p.targetElement.nextElementSibling with
         | some el => [Effect.focusEl el] | none => []) ++ [] := by
      simp [maybeMoveSelection, hk, hku, hs, h0, hlen, getAndClearAndAddFile, hnext]
    rw [newSelection, heff, applyEffects_focusPrefix]
    simp [applyEffects]

/-- Witness for C3 at `files = [A, B, C]`, `selectedIds = ["A", "B"]`
(last-selected `B` at position 1; its successor is `C`). -/
theorem arrowDown_no_extend_collapses_witness :
    (([⟨"A"⟩, ⟨"B"⟩, ⟨"C"⟩] : List AnyFile).findIdx?
      (fun f => f.id == lastSelectedId
        { allowMultiple := true, shiftKey := false, key := "ArrowDown",
          targetElement := ⟨some "p", some "n"⟩, file := ⟨"B"⟩,
          files := [⟨"A"⟩, ⟨"B"⟩, ⟨"C"⟩], selectedFileIds := ["A", "B"] }) = some 1) ∧
    ((1 + 1 < ([⟨"A"⟩, ⟨"B"⟩, ⟨"C"⟩] : List AnyFile).length →
      ∃ f, ([⟨"A"⟩, ⟨"B"⟩, ⟨"C"⟩] : List AnyFile).get? (1 + 1) = some f ∧
        newSelection
          { allowMultiple := true, shiftKey := false, key := "ArrowDown",
            targetElement := ⟨some "p", some "n"⟩, file := ⟨"B"⟩,
            files := [⟨"A"⟩, ⟨"B"⟩, ⟨"C"⟩], selectedFileIds := ["A", "B"] } =
          [stringifyFileKey f.id]) ∧
    (¬ 1 + 1 < ([⟨"A"⟩, ⟨"B"⟩, ⟨"C"⟩] : List AnyFile).length →
      newSelection
        { allowMultiple := true, shiftKey := false, key := "ArrowDown",
          targetElement := ⟨some "p", some "n"⟩, file := ⟨"B"⟩,
          files := [⟨"A"⟩, ⟨"B"⟩, ⟨"C"⟩], selectedFileIds := ["A", "B"] } =
      MoveSelectionParams.selectedFileIds
        { allowMultiple := true, shiftKey := false, key := "ArrowDown",
          targetElement := ⟨some "p", some "n"⟩, file := ⟨"B"⟩,
          files := [⟨"A"⟩, ⟨"B"⟩, ⟨"C"⟩], selectedFileIds := ["A", "B"] })) :=
  ⟨by decide,
    arrowDown_no_extend_collapses
      { allowMultiple := true, shiftKey := false, key := "ArrowDown",
        targetElement := ⟨some "p", some "n"⟩, file := ⟨"B"⟩,
        files := [⟨"A"⟩, ⟨"B"⟩, ⟨"C"⟩], selectedFileIds := ["A", "B"] }
      rfl rfl (by decide) 1 (by decide)⟩

/-! ## C6: extension never creates duplicates -/

/-- `getAndAddFile` never emits a `clear`. -/
theorem getAndAddFile_no_clear (files : List AnyFile) (sel : List String)
    (g : List AnyFile → String → Option AnyFile) (id : String) :
    Effect.clear ∉ getAndAddFile files sel g id := by
  intro h
  obtain ⟨i, hi⟩ := getAndAddFile_all_add files sel g id _ h
  exact absurd hi (by simp)

/-- `getAndAddFile` never emits a `remove`. -/
theorem getAndAddFile_no_remove (files : List AnyFile) (sel : List String)
    (g : List AnyFile → String → Option AnyFile) (id : String) :
    ∀ i, Effect.remove i ∉ getAndAddFile files sel g id := by
  intro i h
  obtain ⟨j, hj⟩ := getAndAddFile_all_add files sel g id _ h
  exact absurd hj (by simp)

/-- Applying `getAndAddFile`'s effects to a duplicate-free list whose
members all belong to `sel` keeps it duplicate-free: the added id, if
any, was checked against `sel`. -/
theorem getAndAddFile_nodup (files : List AnyFile) (sel mid : List String)
    (g : List AnyFile → String → Option AnyFile) (id : String)
    (hmid : mid.Nodup) (hsub : ∀ x ∈ mid, x ∈ sel) :
    (applyEffects mid (getAndAddFile files sel g id)).Nodup := by
  unfold getAndAddFile
  split
  · rename_i f hf
    split
    · simpa [applyEffects] using hmid
    · rename_i hc
      have hni : stringifyFileKey f.id ∉ sel := by simpa using hc
      have hnm : stringifyFileKey f.id ∉ mid := fun hin => hni (hsub _ hin)
      simp only [applyEffects, List.foldl_cons, List.foldl_nil, applyEffect]
      simp [List.nodup_append, hmid, hnm]
  · simpa [applyEffects] using hmid

/-- The leading segment of an extension branch (nothing, or a single
`remove`) leaves a duplicate-free sub-selection of `sel`. -/
theorem applyEffects_preRemove_sub (sel : List String) (hnd : sel.Nodup)
    (c1 c2 : Prop) [Decidable c1] [Decidable c2] (a : String) :
    (applyEffects sel
      (if c1 then [] else if c2 then [Effect.remove a] else [])).Nodup ∧
    ∀ x ∈ applyEffects sel
      (if c1 then ([] : List Effect) else if c2 then [Effect.remove a] else []), x ∈ sel := by
  split
  · exact ⟨by simpa [applyEffects] using hnd,
      fun x hx => by simpa [applyEffects] using hx⟩
  split
  · constructor
    · simp only [applyEffects, List.foldl_cons, List.foldl_nil, applyEffect]
      exact hnd.filter _
    · intro x hx
      simp only [applyEffects, List.foldl_cons, List.foldl_nil, applyEffect,
        List.mem_filter] at hx
      exact hx.1
  · exact ⟨by simpa [applyEffects] using hnd,
      fun x hx => by simpa [applyEffects] using hx⟩

/-- C6: with the extend modifier and `allowMultiple`, an adjacent file
that is already selected is not added again (no `add` effect is emitted
at all), and a duplicate-free selection stays duplicate-free. -/
theorem extend_no_duplicates (p : MoveSelectionParams)
    (hs : p.shiftKey = true) (hm : p.allowMultiple = true)
    (hnd : p.selectedFileIds.Nodup) :
    (newSelection p).Nodup ∧
    (∀ f, p.key = "ArrowUp" →
      getPreviousFile p.files (lastSelectedId p) = some f →
      stringifyFileKey f.id ∈ p.selectedFileIds →
      ∀ id, Effect.add id ∉ maybeMoveSelection p) ∧
    (∀ f, p.key = "ArrowDown" →
      getNextFile p.files (lastSelectedId p) = some f →
      stringifyFileKey f.id ∈ p.selectedFileIds →
      ∀ id, Effect.add id ∉ maybeMoveSelection p) := by
  by_cases hz : p.selectedFileIds.length = 0
  · have heff : maybeMoveSelection p = [] := by simp [maybeMoveSelection, hz]
    refine ⟨by simpa [newSelection, heff, applyEffects] using hnd, ?_, ?_⟩ <;>
      intro f _ _ _ id hin <;> rw [heff] at hin <;> simp at hin
  by_cases hk1 : p.key = "ArrowUp"
  · have heff : maybeMoveSelection p =
        (if p.selectedFileIds.length = 1 then []
         else if initialDirection p = SelectionDirection.down then
           [Effect.remove (lastSelectedId p)]
         else [])
        ++ getAndAddFile p.files p.selectedFileIds getPreviousFile (lastSelectedId p) := by
      simp [maybeMoveSelection, hk1, hs, hm, hz]
    refine ⟨?_, ?_, ?_⟩
    · rw [newSelection, heff, applyEffects_append]
      obtain ⟨hmidnd, hmidsub⟩ :=
        applyEffects_preRemove_sub p.selectedFileIds hnd
          (p.selectedFileIds.length = 1)
          (initialDirection p = SelectionDirection.down) (lastSelectedId p)
      exact getAndAddFile_nodup _ _ _ _ _ hmidnd hmidsub
    · intro f _ hfp hmem id hin
      have hgaaf : getAndAddFile p.files p.selectedFileIds getPreviousFile
          (lastSelectedId p) = [] := by
        simp [getAndAddFile, hfp, hmem]
      rw [heff, hgaaf, List.append_nil] at hin
      split at hin
      · simp at hin
      · split at hin
        · simp at hin
        · simp at hin
    · intro f hkd _ _ id hin
      rw [hk1] at hkd
      exact absurd hkd (by decide)
  by_cases hk2 : p.key = "ArrowDown"
  · have heff : maybeMoveSelection p =
        (if p.selectedFileIds.length = 1 then []
         else if initialDirection p = SelectionDirection.up then
           [Effect.remove (lastSelectedId p)]
         else [])
        ++ getAndAddFile p.files p.selectedFileIds getNextFile (lastSelectedId p) := by
      simp [maybeMoveSelection, hk2, hk1, hs, hm, hz]
    refine ⟨?_, ?_, ?_⟩
    · rw [newSelection, heff, applyEffects_append]
      obtain ⟨hmidnd, hmidsub⟩ :=
        applyEffects_preRemove_sub p.selectedFileIds hnd
          (p.selectedFileIds.length = 1)
          (initialDirection p = SelectionDirection.up) (lastSelectedId p)
      exact getAndAddFile_nodup _ _ _ _ _ hmidnd hmidsub
    · intro f hku _ _ id hin
      rw [hk2] at hku
      exact absurd hku (by decide)
    · intro f _ hfn hmem id hin
      have hgaaf : getAndAddFile p.files p.selectedFileIds getNextFile
          (lastSelectedId p) = [] := by
        simp [getAndAddFile, hfn, hmem]
      rw [heff, hgaaf, List.append_nil] at hin
      split at hin
      · simp at hin
      · split at hin
        · simp at hin
        · simp at hin
  · have heff : maybeMoveSelection p = [] := by
      simp [maybeMoveSelection, hz, hk1, hk2]
    refine ⟨by simpa [newSelection, heff, applyEffects] using hnd, ?_, ?_⟩ <;>
      intro f hk _ _ id hin
    · exact hk1 hk
    · exact hk2 hk

/-- Witness for C6 at `files = [A, B, C]`, `selectedIds = ["C", "B"]`
(direction `up`), key `ArrowUp` with extend: `A` is added once and the
result `["C", "B", "A"]` is duplicate-free. -/
theorem extend_no_duplicates_witness :
    (MoveSelectionParams.selectedFileIds
      { allowMultiple := true, shiftKey := true, key := "ArrowUp",
        targetElement := ⟨some "p", some "n"⟩, file := ⟨"B"⟩,
        files := [⟨"A"⟩, ⟨"B"⟩, ⟨"C"⟩], selectedFileIds := ["C", "B"] }).Nodup ∧
    ((newSelection
      { allowMultiple := true, shiftKey := true, key := "ArrowUp",
        targetElement := ⟨some "p", some "n"⟩, file := ⟨"B"⟩,
        files := [⟨"A"⟩, ⟨"B"⟩, ⟨"C"⟩], selectedFileIds := ["C", "B"] }).Nodup ∧
    (∀ f, MoveSelectionParams.key
      { allowMultiple := true, shiftKey := true, key := "ArrowUp",
        targetElement := ⟨some "p", some "n"⟩, file := ⟨"B"⟩,
        files := [⟨"A"⟩, ⟨"B"⟩, ⟨"C"⟩], selectedFileIds := ["C", "B"] } = "ArrowUp" →
      getPreviousFile [⟨"A"⟩, ⟨"B"⟩, ⟨"C"⟩] (lastSelectedId
      { allowMultiple := true, shiftKey := true, key := "ArrowUp",
        targetElement := ⟨some "p", some "n"⟩, file := ⟨"B"⟩,
        files := [⟨"A"⟩, ⟨"B"⟩, ⟨"C"⟩], selectedFileIds := ["C", "B"] }) = some f →
      stringifyFileKey f.id ∈ ["C", "B"] →
      ∀ id, Effect.add id ∉ maybeMoveSelection
      { allowMultiple := true, shiftKey := true, key := "ArrowUp",
        targetElement := ⟨some "p", some "n"⟩, file := ⟨"B"⟩,
        files := [⟨"A"⟩, ⟨"B"⟩, ⟨"C"⟩], selectedFileIds := ["C", "B"] }) ∧
    (∀ f, MoveSelectionParams.key
      { allowMultiple := true, shiftKey := true, key := "ArrowUp",
        targetElement := ⟨some "p", some "n"⟩, file := ⟨"B"⟩,
        files := [⟨"A"⟩, ⟨"B"⟩, ⟨"C"⟩], selectedFileIds := ["C", "B"] } = "ArrowDown" →
      getNextFile [⟨"A"⟩, ⟨"B"⟩, ⟨"C"⟩] (lastSelectedId
      { allowMultiple := true, shiftKey := true, key := "ArrowUp",
        targetElement := ⟨some "p", some "n"⟩, file := ⟨"B"⟩,
        files := [⟨"A"⟩, ⟨"B"⟩, ⟨"C"⟩], selectedFileIds := ["C", "B"] }) = some f →
      stringifyFileKey f.id ∈ ["C", "B"] →
      ∀ id, Effect.add id ∉ maybeMoveSelection
      { allowMultiple := true, shiftKey := true, key := "ArrowUp",
        targetElement := ⟨some "p", some "n"⟩, file := ⟨"B"⟩,
        files := [⟨"A"⟩, ⟨"B"⟩, ⟨"C"⟩], selectedFileIds := ["C", "B"] })) :=
  ⟨by decide,
    extend_no_duplicates
      { allowMultiple := true, shiftKey := true, key := "ArrowUp",
        targetElement := ⟨some "p", some "n"⟩, file := ⟨"B"⟩,
        files := [⟨"A"⟩, ⟨"B"⟩, ⟨"C"⟩], selectedFileIds := ["C", "B"] }
      rfl rfl (by decide)⟩

/-! ## C9: the selection is never left empty -/

/-- In a duplicate-free list of more than one element there is a member
different from any given value. -/
theorem exists_mem_ne {l : List String} (hnd : l.Nodup) (hl : 1 < l.length)
    (a : String) : ∃ b ∈ l, ¬ b = a := by
  match l, hnd, hl with
  | x :: y :: t, hnd, _ =>
    simp only [List.nodup_cons, List.mem_cons, not_or] at hnd
    by_cases hx : x = a
    · exact ⟨y, by simp, fun h => hnd.1.1 (hx.trans h.symm)⟩
    · exact ⟨x, by simp, hx⟩

/-- Removing one value from a duplicate-free list of more than one
element leaves a non-empty list. -/
theorem filter_bne_ne_nil {l : List String} (hnd : l.Nodup) (hl : 1 < l.length)
    (a : String) : ¬ l.filter (fun k => k != a) = [] := by
  obtain ⟨b, hb, hba⟩ := exists_mem_ne hnd hl a
  intro hnil
  have hmem : b ∈ l.filter (fun k => k != a) := by
    simp [List.mem_filter, hb, hba]
  rw [hnil] at hmem
  simp at hmem

/-- Running `getAndAddFile`'s effects never empties a non-empty list. -/
theorem applyEffects_getAndAddFile_ne_nil (mid : List String) (hmid : ¬ mid = [])
    (files : List AnyFile) (sel : List String)
    (g : List AnyFile → String → Option AnyFile) (id : String) :
    ¬ applyEffects mid (getAndAddFile files sel g id) = [] := by
  unfold getAndAddFile
  split
  · split
    · simpa [applyEffects] using hmid
    · simp [applyEffects, applyEffect]
  · simpa [applyEffects] using hmid

/-- `getAndClearAndAddFile` emits either nothing or exactly a `clear`
immediately followed by an `add`. -/
theorem getAndClearAndAddFile_shape (files : List AnyFile)
    (g : List AnyFile → String → Option AnyFile) (id : String) :
    getAndClearAndAddFile files g id = [] ∨
    ∃ i, getAndClearAndAddFile files g id = [Effect.clear, Effect.add i] := by
  unfold getAndClearAndAddFile
  split
  · exact Or.inr ⟨_, rfl⟩
  · exact Or.inl rfl

/-- The three C9 properties for a focus-then-reset branch trace. -/
theorem reset_branch_props (sel : List String) (hne : ¬ sel = [])
    (files : List AnyFile) (g : List AnyFile → String → Option AnyFile) (id : String)
    (o : Option String) :
    ¬ applyEffects sel
        ((match o with | some el => [Effect.focusEl el] | none => []) ++
          getAndClearAndAddFile files g id) = [] ∧
    (Effect.clear ∈ ((match o with | some el => [Effect.focusEl el] | none => []) ++
          getAndClearAndAddFile files g id) →
      ∃ i, List.IsSuffix [Effect.clear, Effect.add i]
        ((match o with | some el => [Effect.focusEl el] | none => []) ++
          getAndClearAndAddFile files g id)) ∧
    ∀ i, Effect.remove i ∉
        ((match o with | some el => [Effect.focusEl el] | none => []) ++
          getAndClearAndAddFile files g id) := by
  rcases getAndClearAndAddFile_shape files g id with hg | ⟨x, hg⟩
  · rw [hg]
    refine ⟨?_, ?_, ?_⟩
    · cases o <;> simpa [applyEffects, applyEffect] using hne
    · intro hcl
      exfalso
      cases o <;> simp at hcl
    · intro i hin
      cases o <;> simp at hin
  · rw [hg]
    refine ⟨?_, ?_, ?_⟩
    · rw [applyEffects_focusPrefix]
      simp [applyEffects, applyEffect]
    · intro _
      exact ⟨x, List.suffix_append _ _⟩
    · intro i hin
      rcases List.mem_append.mp hin with h | h
      · cases o <;> simp at h
      · simp at h

/-- C9: starting from a non-empty (duplicate-free) selection,
`maybeMoveSelection` never leaves the selection empty; every `clear` in
its trace is immediately followed by an `add` that closes the trace; and
a `remove` is only emitted when more than one identifier is selected. -/
theorem selection_stays_nonempty (p : MoveSelectionParams)
    (hne : ¬ p.selectedFileIds = []) (hnd : p.selectedFileIds.Nodup) :
    ¬ newSelection p = [] ∧
    (Effect.clear ∈ maybeMoveSelection p →
      ∃ id, List.IsSuffix [Effect.clear, Effect.add id] (maybeMoveSelection p)) ∧
    (∀ id, Effect.remove id ∈ maybeMoveSelection p →
      1 < p.selectedFileIds.length) := by
  have hz : ¬ p.selectedFileIds.length = 0 := by
    simpa [List.length_eq_zero] using hne
  have hpos : 0 < p.selectedFileIds.length := List.length_pos.mpr hne
  by_cases hk1 : p.key = "ArrowUp"
  · by_cases hsm : (p.shiftKey && p.allowMultiple) = true
    · have heff : maybeMoveSelection p =
          (if p.selectedFileIds.length = 1 then []
           else if initialDirection p = SelectionDirection.down then
             [Effect.remove (lastSelectedId p)]
           else [])
          ++ getAndAddFile p.files p.selectedFileIds getPreviousFile (lastSelectedId p) := by
        simp [maybeMoveSelection, hk1, hsm, hz]
      refine ⟨?_, ?_, ?_⟩
      · rw [newSelection, heff, applyEffects_append]
        apply applyEffects_getAndAddFile_ne_nil
        split
        · simpa [applyEffects] using hne
        · rename_i hlen1
          split
          · have hl : 1 < p.selectedFileIds.length := by omega
            simp only [applyEffects, List.foldl_cons, List.foldl_nil, applyEffect]
            exact filter_bne_ne_nil hnd hl _
          · simpa [applyEffects] using hne
      · intro hcl
        rw [heff] at hcl
        exfalso
        rcases List.mem_append.mp hcl with h | h
        · split at h
          · simp at h
          · split at h
            · simp at h
            · simp at h
        · exact getAndAddFile_no_clear _ _ _ _ h
      · intro id hin
        rw [heff] at hin
        rcases List.mem_append.mp hin with h | h
        · split at h
          · simp at h
          · rename_i hlen1
            omega
        · exact absurd h (getAndAddFile_no_remove _ _ _ _ _)
    · by_cases hgt : 1 < p.selectedFileIds.length
      · have heff : maybeMoveSelection p =
            (match p.targetElement.previousElementSibling with
             | some el => [Effect.focusEl el] | none => []) ++
            getAndClearAndAddFile p.files getPreviousFile (lastSelectedId p) := by
          simp [maybeMoveSelection, hk1, hz, hsm, hgt]
        obtain ⟨h1, h2, h3⟩ := reset_branch_props p.selectedFileIds hne p.files
          getPreviousFile (lastSelectedId p) p.targetElement.previousElementSibling
        refine ⟨?_, ?_, ?_⟩
        · rw [newSelection, heff]
          exact h1
        · rw [heff]
          exact h2
        · intro id _
          exact hgt
      · have heff : maybeMoveSelection p =
            (match p.targetElement.previousElementSibling with
             | some el => [Effect.focusEl el] | none => []) ++
            getAndClearAndAddFile p.files getPreviousFile p.file.id := by
          simp [maybeMoveSelection, hk1, hz, hsm, hgt]
        obtain ⟨h1, h2, h3⟩ := reset_branch_props p.selectedFileIds hne p.files
          getPreviousFile p.file.id p.targetElement.previousElementSibling
        refine ⟨?_, ?_, ?_⟩
        · rw [newSelection, heff]
          exact h1
        · rw [heff]
          exact h2
        · intro id hin
          rw [heff] at hin
          exact absurd hin (h3 id)
  · by_cases hk2 : p.key = "ArrowDown"
    · by_cases hsm : (p.shiftKey && p.allowMultiple) = true
      · have heff : maybeMoveSelection p =
            (if p.selectedFileIds.length = 1 then []
             else if initialDirection p = SelectionDirection.up then
               [Effect.remove (lastSelectedId p)]
             else [])
            ++ getAndAddFile p.files p.selectedFileIds getNextFile (lastSelectedId p) := by
          simp [maybeMoveSelection, hk1, hk2, hsm, hz]
        refine ⟨?_, ?_, ?_⟩
        · rw [newSelection, heff, applyEffects_append]
          apply applyEffects_getAndAddFile_ne_nil
          split
          · simpa [applyEffects] using hne
          · rename_i hlen1
            split
            · have hl : 1 < p.selectedFileIds.length := by omega
              simp only [applyEffects, List.foldl_cons, List.foldl_nil, applyEffect]
              exact filter_bne_ne_nil hnd hl _
            · simpa [applyEffects] using hne
        · intro hcl
          rw [heff] at hcl
          exfalso
          rcases List.mem_append.mp hcl with h | h
          · split at h
            · simp at h
            · split at h
              · simp at h
              · simp at h
          · exact getAndAddFile_no_clear _ _ _ _ h
        · intro id hin
          rw [heff] at hin
          rcases List.mem_append.mp hin with h | h
          · split at h
            · simp at h
            · rename_i hlen1
              omega
          · exact absurd h (getAndAddFile_no_remove _ _ _ _ _)
      · by_cases hgt : 1 < p.selectedFileIds.length
        · have heff : maybeMoveSelection p =
              (match p.targetElement.nextElementSibling with
               | some el => [Effect.focusEl el] | none => []) ++
              getAndClearAndAddFile p.files getNextFile (lastSelectedId p) := by
            simp [maybeMoveSelection, hk1, hk2, hz, hsm, hgt]
          obtain ⟨h1, h2, h3⟩ := reset_branch_props p.selectedFileIds hne p.files
            getNextFile (lastSelectedId p) p.targetElement.nextElementSibling
          refine ⟨?_, ?_, ?_⟩
          · rw [newSelection, heff]
            exact h1
          · rw [heff]
            exact h2
          · intro id _
            exact hgt
        · have heff : maybeMoveSelection p =
              (match p.targetElement.nextElementSibling with
               | some el => [Effect.focusEl el] | none => []) ++
              getAndClearAndAddFile p.files getNextFile p.file.id := by
            simp [maybeMoveSelection, hk1, hk2, hz, hsm, hgt]
          obtain ⟨h1, h2, h3⟩ := reset_branch_props p.selectedFileIds hne p.files
            getNextFile p.file.id p.targetElement.nextElementSibling
          refine ⟨?_, ?_, ?_⟩
          · rw [newSelection, heff]
            exact h1
          · rw [heff]
            exact h2
          · intro id hin
            rw [heff] at hin
            exact absurd hin (h3 id)
    · have heff : maybeMoveSelection p = [] := by
        simp [maybeMoveSelection, hz, hk1, hk2]
      refine ⟨?_, ?_, ?_⟩
      · rw [newSelection, heff]
        simpa [applyEffects] using hne
      · intro hcl
        rw [heff] at hcl
        simp at hcl
      · intro id hin
        rw [heff] at hin
        simp at hin

/-- Witness for C9 at `files = [A, B, C]`, `selectedIds = ["B", "A"]`,
key `ArrowDown` with extend (direction `up`, so the last-selected `A` is
removed and the already-selected `B` is not re-added): the selection
stays non-empty. -/
theorem selection_stays_nonempty_witness :
    (¬ (MoveSelectionParams.selectedFileIds
      { allowMultiple := true, shiftKey := true, key := "ArrowDown",
        targetElement := ⟨some "p", some "n"⟩, file := ⟨"A"⟩,
        files := [⟨"A"⟩, ⟨"B"⟩, ⟨"C"⟩], selectedFileIds := ["B", "A"] }) = []) ∧
    ((¬ newSelection
      { allowMultiple := true, shiftKey := true, key := "ArrowDown",
        targetElement := ⟨some "p", some "n"⟩, file := ⟨"A"⟩,
        files := [⟨"A"⟩, ⟨"B"⟩, ⟨"C"⟩], selectedFileIds := ["B", "A"] } = []) ∧
    (Effect.clear ∈ maybeMoveSelection
      { allowMultiple := true, shiftKey := true, key := "ArrowDown",
        targetElement := ⟨some "p", some "n"⟩, file := ⟨"A"⟩,
        files := [⟨"A"⟩, ⟨"B"⟩, ⟨"C"⟩], selectedFileIds := ["B", "A"] } →
      ∃ id, List.IsSuffix [Effect.clear, Effect.add id] (maybeMoveSelection
      { allowMultiple := true, shiftKey := true, key := "ArrowDown",
        targetElement := ⟨some "p", some "n"⟩, file := ⟨"A"⟩,
        files := [⟨"A"⟩, ⟨"B"⟩, ⟨"C"⟩], selectedFileIds := ["B", "A"] })) ∧
    (∀ id, Effect.remove id ∈ maybeMoveSelection
      { allowMultiple := true, shiftKey := true, key := "ArrowDown",
        targetElement := ⟨some "p", some "n"⟩, file := ⟨"A"⟩,
        files := [⟨"A"⟩, ⟨"B"⟩, ⟨"C"⟩], selectedFileIds := ["B", "A"] } →
      1 < (MoveSelectionParams.selectedFileIds
      { allowMultiple := true, shiftKey := true, key := "ArrowDown",
        targetElement := ⟨some "p", some "n"⟩, file := ⟨"A"⟩,
        files := [⟨"A"⟩, ⟨"B"⟩, ⟨"C"⟩], selectedFileIds := ["B", "A"] }).length)) :=
  ⟨by decide,
    selection_stays_nonempty
      { allowMultiple := true, shiftKey := true, key := "ArrowDown",
        targetElement := ⟨some "p", some "n"⟩, file := ⟨"A"⟩,
        files := [⟨"A"⟩, ⟨"B"⟩, ⟨"C"⟩], selectedFileIds := ["B", "A"] }
      (by decide) (by decide)⟩

/-! ## C10: stale identifiers -/

/-- C10 counterexample: with one selected identifier `Z` absent from the
list and the extend modifier not held, `maybeMoveSelection` navigates
relative to the *focused* file (`A`), not the stale last-selected
identifier, and does perform an add (of `B`): the adjacent lookups on
`Z` both return `none`, yet the call adds `B` to the selection. -/
theorem stale_single_no_extend_still_adds :
    (∀ f ∈ ([⟨"A"⟩, ⟨"B"⟩] : List AnyFile), ¬ f.id = lastSelectedId
      { allowMultiple := true, shiftKey := false, key := "ArrowDown",
        targetElement := ⟨some "p", some "n"⟩, file := ⟨"A"⟩,
        files := [⟨"A"⟩, ⟨"B"⟩], selectedFileIds := ["Z"] }) ∧
    getNextFile [⟨"A"⟩, ⟨"B"⟩] "Z" = Option.none ∧
    getPreviousFile [⟨"A"⟩, ⟨"B"⟩] "Z" = Option.none ∧
    Effect.add "B" ∈ maybeMoveSelection
      { allowMultiple := true, shiftKey := false, key := "ArrowDown",
        targetElement := ⟨some "p", some "n"⟩, file := ⟨"A"⟩,
        files := [⟨"A"⟩, ⟨"B"⟩], selectedFileIds := ["Z"] } ∧
    newSelection
      { allowMultiple := true, shiftKey := false, key := "ArrowDown",
        targetElement := ⟨some "p", some "n"⟩, file := ⟨"A"⟩,
        files := [⟨"A"⟩, ⟨"B"⟩], selectedFileIds := ["Z"] } = ["B"] := by
  refine ⟨?_, ?_, ?_, ?_, ?_⟩ <;> decide

/-- C10 amended: for every identifier absent from the file list, both
adjacent lookups return `undefined` (`none`) rather than an error; and a
`maybeMoveSelection` call whose last-selected identifier is stale
performs no add, provided the call is in an extension branch (extend
modifier with `allowMultiple`) or more than one identifier is selected —
a size-1 selection without the extend modifier instead navigates
relative to the focused file and may still add. -/
theorem stale_last_selected_no_add (p : MoveSelectionParams)
    (hstale : ∀ f ∈ p.files, ¬ f.id = lastSelectedId p)
    (hcase : (p.shiftKey = true ∧ p.allowMultiple = true) ∨
      1 < p.selectedFileIds.length) :
    getNextFile p.files (lastSelectedId p) = Option.none ∧
    getPreviousFile p.files (lastSelectedId p) = Option.none ∧
    ∀ id, Effect.add id ∉ maybeMoveSelection p := by
  have hfind : p.files.findIdx? (fun f => f.id == lastSelectedId p) = none := by
    rw [List.findIdx?_eq_none_iff]
    intro f hf
    simpa using hstale f hf
  have hnext : getNextFile p.files (lastSelectedId p) = Option.none := by
    simp [getNextFile, hfind]
  have hprev : getPreviousFile p.files (lastSelectedId p) = Option.none := by
    simp [getPreviousFile, hfind]
  refine ⟨hnext, hprev, ?_⟩
  intro id hin
  by_cases hz : p.selectedFileIds.length = 0
  · rw [show maybeMoveSelection p = [] by simp [maybeMoveSelection, hz]] at hin
    simp at hin
  by_cases hk1 : p.key = "ArrowUp"
  · by_cases hsm : (p.shiftKey && p.allowMultiple) = true
    · have heff : maybeMoveSelection p =
          (if p.selectedFileIds.length = 1 then []
           else if initialDirection p = SelectionDirection.down then
             [Effect.remove (lastSelectedId p)]
           else []) ++ [] := by
        simp [maybeMoveSelection, hk1, hsm, hz, getAndAddFile, hprev]
      rw [heff, List.append_nil] at hin
      split at hin
      · simp at hin
      · split at hin
        · simp at hin
        · simp at hin
    · have hgt : 1 < p.selectedFileIds.length := by
        rcases hcase with ⟨ha, hb⟩ | h
        · exact absurd (by rw [ha, hb]; rfl) hsm
        · exact h
      have heff : maybeMoveSelection p =
          (match p.targetElement.previousElementSibling with
           | some el => [Effect.focusEl el] | none => []) ++ [] := by
        simp [maybeMoveSelection, hk1, hz, hsm, hgt, getAndClearAndAddFile, hprev]
      rw [heff, List.append_nil] at hin
      cases hsib : p.targetElement.previousElementSibling <;>
        rw [hsib] at hin <;> simp at hin
  by_cases hk2 : p.key = "ArrowDown"
  · by_cases hsm : (p.shiftKey && p.allowMultiple) = true
    · have heff : maybeMoveSelection p =
          (if p.selectedFileIds.length = 1 then []
           else if initialDirection p = SelectionDirection.up then
             [Effect.remove (lastSelectedId p)]
           else []) ++ [] := by
        simp [maybeMoveSelection, hk1, hk2, hsm, hz, getAndAddFile, hnext]
      rw [heff, List.append_nil] at hin
      split at hin
      · simp at hin
      · split at hin
        · simp at hin
        · simp at hin
    · have hgt : 1 < p.selectedFileIds.length := by
        rcases hcase with ⟨ha, hb⟩ | h
        · exact absurd (by rw [ha, hb]; rfl) hsm
        · exact h
      have heff : maybeMoveSelection p =
          (match p.targetElement.nextElementSibling with
           | some el => [Effect.focusEl el] | none => []) ++ [] := by
        simp [maybeMoveSelection, hk1, hk2, hz, hsm, hgt, getAndClearAndAddFile, hnext]
      rw [heff, List.append_nil] at hin
      cases hsib : p.targetElement.nextElementSibling <;>
        rw [hsib] at hin <;> simp at hin
  · rw [show maybeMoveSelection p = [] by simp [maybeMoveSelection, hz, hk1, hk2]] at hin
    simp at hin

/-- Witness for C10 (amended) at `files = [A, B]`,
`selectedIds = ["Z", "Y"]` (both stale), key `ArrowDown` without extend:
no add is performed. -/
theorem stale_last_selected_no_add_witness :
    (∀ f ∈ ([⟨"A"⟩, ⟨"B"⟩] : List AnyFile), ¬ f.id = lastSelectedId
      { allowMultiple := true, shiftKey := false, key := "ArrowDown",
        targetElement := ⟨some "p", some "n"⟩, file := ⟨"A"⟩,
        files := [⟨"A"⟩, ⟨"B"⟩], selectedFileIds := ["Z", "Y"] }) ∧
    (getNextFile [⟨"A"⟩, ⟨"B"⟩] (lastSelectedId
      { allowMultiple := true, shiftKey := false, key := "ArrowDown",
        targetElement := ⟨some "p", some "n"⟩, file := ⟨"A"⟩,
        files := [⟨"A"⟩, ⟨"B"⟩], selectedFileIds := ["Z", "Y"] }) = Option.none ∧
    getPreviousFile [⟨"A"⟩, ⟨"B"⟩] (lastSelectedId
      { allowMultiple := true, shiftKey := false, key := "ArrowDown",
        targetElement := ⟨some "p", some "n"⟩, file := ⟨"A"⟩,
        files := [⟨"A"⟩, ⟨"B"⟩], selectedFileIds := ["Z", "Y"] }) = Option.none ∧
    ∀ id, Effect.add id ∉ maybeMoveSelection
      { allowMultiple := true, shiftKey := false, key := "ArrowDown",
        targetElement := ⟨some "p", some "n"⟩, file := ⟨"A"⟩,
        files := [⟨"A"⟩, ⟨"B"⟩], selectedFileIds := ["Z", "Y"] }) :=
  ⟨by decide,
    stale_last_selected_no_add
      { allowMultiple := true, shiftKey := false, key := "ArrowDown",
        targetElement := ⟨some "p", some "n"⟩, file := ⟨"A"⟩,
        files := [⟨"A"⟩, ⟨"B"⟩], selectedFileIds := ["Z", "Y"] }
      (by decide) (Or.inr (by decide))⟩
